import Mathlib

/-
Verification of the Debut trading core (src/src/cli/tester/history-providers/ib.ts,
second embedded module: the abstract class Debut).

Shallow embedding notes:
* JS numbers are modelled as rationals; none of the verified claims depends on
  floating-point rounding.
* JS object identity for orders is modelled through the correlation id (cid);
  the data model states that the order book is unique by cid, so reference
  equality (Array.prototype.indexOf) coincides with first-match-by-cid, and an
  in-place mutation of an order object is modelled by rewriting every book
  entry bearing that cid.
* The PluginDriver module (plugin-driver.ts) is not part of the sources, only
  its call sites are; its two reduction primitives are modelled from the spec
  and marked as such below.
* Asynchronous awaited steps are sequential in the source (single logical
  thread), so the embedding is plain sequential state passing; observable
  effects (hook invocations with the order book they can observe, transport
  submissions, error logging) are recorded in an explicit event trace.
-/

inductive OrderType where
  | BUY
  | SELL
deriving DecidableEq, Repr

/-- External dependency of the core, orders.inverseType from the
plugin-utils package: swaps the trade side. -/
def inverseType : OrderType → OrderType
  | .BUY => .SELL
  | .SELL => .BUY

/-- Candle and tick data, from the Candle shape used by the core
(o, h, l, c, v, time). -/
structure Candle where
  o : ℚ
  h : ℚ
  l : ℚ
  c : ℚ
  v : ℚ
  time : ℚ
deriving DecidableEq, Repr

/-- Order record covering both PendingOrder and ExecutedOrder: a field that a
pending order literal does not carry in the source (orderId, executedLots,
openPrice, openId, lotsMultiplier, equityLevel on close orders) is an Option,
none meaning the key is absent. The guard in closeOrder tests key presence of
orderId, which is orderId.isSome here. -/
structure Order where
  cid : ℚ
  broker : Option String
  type : OrderType
  ticker : String
  figi : String
  currency : String
  interval : String
  author : String
  price : ℚ
  lots : Option ℚ
  lotSize : ℚ
  pipSize : ℚ
  close : Bool
  openPrice : Option ℚ
  openId : Option ℚ
  sandbox : Bool
  learning : Bool
  futures : Bool
  instrumentType : Option String
  time : ℚ
  margin : Bool
  lotsMultiplier : Option ℚ
  equityLevel : Option ℚ
  orderId : Option ℚ
  executedLots : Option ℚ
  processing : Bool
deriving DecidableEq, Repr

/-- Instrument identity resolved by the transport. -/
structure Instrument where
  ticker : String
  figi : String
  lot : ℚ
  pipSize : ℚ
  id : String
deriving DecidableEq, Repr

/-- DebutOptions as received by the constructor: the four keys that the
constructor defaults (instrumentType, fee, lotsMultiplier, equityLevel) are
Options, none meaning the key is absent from the caller supplied object.
broker has no default and stays optional after the merge. -/
structure DebutOptionsInput where
  broker : Option String
  ticker : String
  currency : String
  interval : String
  amount : ℚ
  sandbox : Bool
  margin : Bool
  instrumentType : Option String
  fee : Option ℚ
  lotsMultiplier : Option ℚ
  equityLevel : Option ℚ
deriving DecidableEq, Repr

/-- DebutOptions after the constructor merged the defaults in. -/
structure DebutOpts where
  broker : Option String
  ticker : String
  currency : String
  interval : String
  amount : ℚ
  sandbox : Bool
  margin : Bool
  instrumentType : String
  fee : ℚ
  lotsMultiplier : ℚ
  equityLevel : ℚ
deriving DecidableEq, Repr

/-- Spread merge of the constructor, this.opts = defaults overridden by the
input: a key present in the input keeps the caller value, an absent key gets
the default (SPOT, 0.0003, 1, 1). -/
def mergeOptions (input : DebutOptionsInput) : DebutOpts :=
  { broker := input.broker
    ticker := input.ticker
    currency := input.currency
    interval := input.interval
    amount := input.amount
    sandbox := input.sandbox
    margin := input.margin
    instrumentType := input.instrumentType.getD "SPOT"
    fee := input.fee.getD (3 / 10000)
    lotsMultiplier := input.lotsMultiplier.getD 1
    equityLevel := input.equityLevel.getD 1 }

/-- Error message thrown by validateConfig. -/
def futuresErrMsg : String := "Futures are supported only on \"Binance\" broker"

/-- Constructor model: merge the options, then validateConfig, which throws a
Core error when instrumentType is FUTURES on a broker other than binance. -/
def debutConstructor (input : DebutOptionsInput) : Except String DebutOpts :=
  let opts := mergeOptions input
  if opts.broker ≠ some "binance" ∧ opts.instrumentType = "FUTURES" then
    .error futuresErrMsg
  else
    .ok opts

/-- Named hook points of the plugin pipeline. -/
inductive HookPoint where
  | beforeOpen
  | onOpen
  | beforeClose
  | onClose
  | beforeTick
  | onTick
  | onCandle
  | onAfterCandle
deriving DecidableEq, Repr

/-- Observable effects of an engine operation, in execution order. A hook
event records which plugin index ran and the order book it could observe at
that moment; a candleHook event records the candle argument it received;
place records a transport submission; logCore records an error logged by a
catch block of the core. -/
inductive Event where
  | hook (p : HookPoint) (idx : Nat) (book : List Order)
  | candleHook (p : HookPoint) (idx : Nat) (arg : Candle)
  | place (ord : Order)
  | logCore (msg : String)
deriving DecidableEq, Repr

/-- Modelled from the spec: PluginDriver.asyncSkipReduce (plugin-driver.ts is
not among the sources). Invokes every registered hook strictly in
registration order; stops at the first truthy (skip) result reporting skip,
propagates the first failure, and invokes no hook after a veto or a failure.
The second component is the trace of hook invocations that happened. -/
def asyncSkipReduce {α : Type} (mkEv : Nat → Event)
    (hooks : List (α → Except String Bool)) (a : α) (idx : Nat) :
    Except String Bool × List Event :=
  match hooks with
  | [] => (.ok false, [])
  | h :: rest =>
    match h a with
    | .error e => (.error e, [mkEv idx])
    | .ok true => (.ok true, [mkEv idx])
    | .ok false =>
      let r := asyncSkipReduce mkEv rest a (idx + 1)
      (r.1, mkEv idx :: r.2)

/-- Modelled from the spec: PluginDriver.asyncReduce (plugin-driver.ts is not
among the sources). Invokes every registered hook strictly in registration
order awaiting each, ignores results, propagates the first failure and
invokes no hook after it. -/
def asyncReduce {α : Type} (mkEv : Nat → Event)
    (hooks : List (α → Except String Unit)) (a : α) (idx : Nat) :
    Except String Unit × List Event :=
  match hooks with
  | [] => (.ok (), [])
  | h :: rest =>
    match h a with
    | .error e => (.error e, [mkEv idx])
    | .ok _ =>
      let r := asyncReduce mkEv rest a (idx + 1)
      (r.1, mkEv idx :: r.2)

/-- Engine state owned by the Debut instance: the order book (this.orders),
the candle window (this.candles) and whether updateCandles has swapped itself
for its post warm-up fast version. -/
structure EngineState where
  orders : List Order
  candles : List Candle
  candlesFast : Bool
deriving DecidableEq, Repr

/-- Result of createOrder and closeOrder: new state, returned value
(none models the JS undefined return) and the event trace. -/
structure OpResult where
  state : EngineState
  ret : Option Order
  events : List Event
deriving DecidableEq, Repr

/-- removePendingOrder: findIndex by cid plus splice of one element, which is
removal of the first entry carrying the cid, identity when none does. The
same function models indexOf(closing) plus splice in closeOrder, since
object identity is tracked by cid. -/
def removeFirstByCid (cid : ℚ) : List Order → List Order
  | [] => []
  | o :: rest => if o.cid = cid then rest else o :: removeFirstByCid cid rest

/-- replacePendingOrder: findIndex by cid plus assignment at that index,
replacement of the first entry carrying the cid of the executed order;
when none does the source only logs a warning and the book is unchanged. -/
def replaceFirstByCid (ord : Order) : List Order → List Order
  | [] => []
  | o :: rest => if o.cid = ord.cid then ord :: rest else o :: replaceFirstByCid ord rest

/-- Whether some book entry carries the cid, modelling indexOf(closing)
returning an index other than -1. -/
def containsCid (cid : ℚ) : List Order → Bool
  | [] => false
  | o :: rest => if o.cid = cid then true else containsCid cid rest

/-- In-place mutation of the processing flag of the order object: every book
entry aliasing the object (identified by cid, unique in the book) is
rewritten. -/
def setProcessing (orders : List Order) (cid : ℚ) (b : Bool) : List Order :=
  orders.map fun o => if o.cid = cid then { o with processing := b } else o

/-- Environment of the engine: configuration and instrument, the registered
plugin hooks in registration order, and the external transport functions. -/
structure Env where
  opts : DebutOpts
  instrument : Instrument
  author : String
  learning : Bool
  beforeOpenHooks : List (Order → Except String Bool)
  onOpenHooks : List (Order → Except String Unit)
  beforeCloseHooks : List (Order × Order → Except String Bool)
  onCloseHooks : List (Order × Order → Except String Unit)
  beforeTickHooks : List (Candle → Except String Bool)
  tickHooks : List (Candle → Except String Unit)
  candleHooks : List (Candle → Except String Unit)
  afterCandleHooks : List (Candle → Except String Unit)
  placeOrder : Order → Except String Order
  prepareLots : ℚ → String → ℚ

/-- The PendingOrder literal built by createOrder; cid stands for the
Math.random draw, passed in as a parameter. -/
def mkOpenPendingOrder (env : Env) (cid : ℚ) (operation : OrderType)
    (candle : Candle) : Order :=
  let price := candle.c
  let lotPrice := price * env.instrument.lot
  let lots := env.prepareLots (env.opts.amount / lotPrice * env.opts.lotsMultiplier)
    env.instrument.id
  { cid := cid
    broker := env.opts.broker
    type := operation
    ticker := env.instrument.ticker
    figi := env.instrument.figi
    currency := env.opts.currency
    interval := env.opts.interval
    author := env.author
    price := price
    lots := some lots
    lotSize := env.instrument.lot
    pipSize := env.instrument.pipSize
    close := false
    openPrice := none
    openId := none
    sandbox := env.opts.sandbox
    learning := env.learning
    futures := decide (env.opts.instrumentType = "FUTURES")
    instrumentType := some env.opts.instrumentType
    time := candle.time
    margin := env.opts.margin
    lotsMultiplier := some env.opts.lotsMultiplier
    equityLevel := some env.opts.equityLevel
    orderId := none
    executedLots := none
    processing := false }

/-- The closing PendingOrder literal built by closeOrder; cid stands for the
Date.now value, passed in as a parameter. -/
def mkClosePendingOrder (env : Env) (cid : ℚ) (closing : Order)
    (candle : Candle) : Order :=
  { cid := cid
    broker := env.opts.broker
    type := inverseType closing.type
    ticker := env.instrument.ticker
    figi := env.instrument.figi
    currency := env.opts.currency
    interval := env.opts.interval
    author := env.author
    price := candle.c
    lots := closing.executedLots
    lotSize := env.instrument.lot
    pipSize := env.instrument.pipSize
    close := true
    openPrice := some closing.price
    openId := closing.orderId
    sandbox := closing.sandbox
    learning := closing.learning
    futures := closing.futures
    instrumentType := closing.instrumentType
    time := candle.time
    margin := env.opts.margin
    lotsMultiplier := none
    equityLevel := none
    orderId := none
    executedLots := none
    processing := false }

/-- Debut.createOrder. The outer Except models a JS exception escaping the
method: the only statement outside the try block that can throw is the
destructuring of this.currentCandle when the candle window is empty; every
failure inside the try block (hooks, transport) is caught, logged as a Core
error and answered with a rollback and an undefined return. -/
def createOrder (env : Env) (cid : ℚ) (operation : OrderType)
    (st : EngineState) : Except String OpResult :=
  match st.candles.head? with
  | none => .error "TypeError: currentCandle is undefined"
  | some candle =>
    let pendingOrder := mkOpenPendingOrder env cid operation candle
    match asyncSkipReduce (fun i => Event.hook .beforeOpen i st.orders)
        env.beforeOpenHooks pendingOrder 0 with
    | (.error e, evs) =>
      .ok { state := { st with orders := removeFirstByCid pendingOrder.cid st.orders }
            ret := none
            events := evs ++ [Event.logCore e] }
    | (.ok true, evs) =>
      .ok { state := st, ret := none, events := evs }
    | (.ok false, evs) =>
      let orders1 := st.orders ++ [pendingOrder]
      match env.placeOrder pendingOrder with
      | .error e =>
        .ok { state := { st with orders := removeFirstByCid pendingOrder.cid orders1 }
              ret := none
              events := evs ++ [Event.place pendingOrder, Event.logCore e] }
      | .ok order =>
        match asyncReduce (fun i => Event.hook .onOpen i orders1)
            env.onOpenHooks order 0 with
        | (.error e, evs2) =>
          .ok { state := { st with orders := removeFirstByCid pendingOrder.cid orders1 }
                ret := none
                events := evs ++ [Event.place pendingOrder] ++ evs2 ++ [Event.logCore e] }
        | (.ok _, evs2) =>
          .ok { state := { st with orders := replaceFirstByCid order orders1 }
                ret := some order
                events := evs ++ [Event.place pendingOrder] ++ evs2 }

/-- The catch block of closeOrder followed by its finally block: restore the
closing order at the front when it is no longer in the book, then reset its
processing flag (the finally mutates the very object that was unshifted). -/
def closeCatchRestore (orders : List Order) (closing1 : Order) : List Order :=
  let restored := if containsCid closing1.cid orders then orders else closing1 :: orders
  setProcessing restored closing1.cid false

/-- Debut.closeOrder. The guard returns undefined for an order already
processing or never executed (no orderId key). As in createOrder, the outer
Except only models the currentCandle destructuring throwing; failures inside
the try block are caught, logged and answered with the compensating
restore; the finally block always clears the processing flag. -/
def closeOrder (env : Env) (cid : ℚ) (closing : Order)
    (st : EngineState) : Except String OpResult :=
  if closing.processing || closing.orderId.isNone then
    .ok { state := st, ret := none, events := [] }
  else
    match st.candles.head? with
    | none => .error "TypeError: currentCandle is undefined"
    | some candle =>
      let pendingOrder := mkClosePendingOrder env cid closing candle
      let closing1 : Order := { closing with processing := true }
      let orders1 := setProcessing st.orders closing.cid true
      match asyncSkipReduce (fun i => Event.hook .beforeClose i orders1)
          env.beforeCloseHooks (pendingOrder, closing1) 0 with
      | (.error e, evs) =>
        .ok { state := { st with orders := closeCatchRestore orders1 closing1 }
              ret := none
              events := evs ++ [Event.logCore e] }
      | (.ok true, evs) =>
        .ok { state := { st with orders := setProcessing orders1 closing.cid false }
              ret := none
              events := evs }
      | (.ok false, evs) =>
        let orders2 := removeFirstByCid closing.cid orders1
        match env.placeOrder pendingOrder with
        | .error e =>
          .ok { state := { st with orders := closeCatchRestore orders2 closing1 }
                ret := none
                events := evs ++ [Event.place pendingOrder, Event.logCore e] }
        | .ok order =>
          match asyncReduce (fun i => Event.hook .onClose i orders2)
              env.onCloseHooks (order, closing1) 0 with
          | (.error e, evs2) =>
            .ok { state := { st with orders := closeCatchRestore orders2 closing1 }
                  ret := none
                  events := evs ++ [Event.place pendingOrder] ++ evs2 ++ [Event.logCore e] }
          | (.ok _, evs2) =>
            .ok { state := { st with orders := setProcessing orders2 closing.cid false }
                  ret := some order
                  events := evs ++ [Event.place pendingOrder] ++ evs2 }

/-- Loop body of closeAll: len iterations fixed by the snapshot, each closing
this.orders[0], the current head, and pushing the result (undefined
included) onto the closed list. cids models the Date.now draw of each
iteration. Indexing an empty book would make closeOrder throw in JS; the
branch is unreachable from closeAll because an iteration removes at most one
order. -/
def closeAllLoop (env : Env) (cids : Nat → ℚ) :
    Nat → Nat → EngineState → Except String (EngineState × List (Option Order) × List Event)
  | _, 0, st => .ok (st, [], [])
  | i, n + 1, st =>
    match st.orders.head? with
    | none => .error "TypeError: cannot read properties of undefined"
    | some o =>
      match closeOrder env (cids i) o st with
      | .error e => .error e
      | .ok r =>
        match closeAllLoop env cids (i + 1) n r.state with
        | .error e => .error e
        | .ok (st', rest, evs) => .ok (st', r.ret :: rest, r.events ++ evs)

/-- Debut.closeAll: undefined (none) on an empty book, otherwise snapshot the
book length and run the close loop. -/
def closeAll (env : Env) (cids : Nat → ℚ) (st : EngineState) :
    Except String (EngineState × Option (List (Option Order)) × List Event) :=
  if st.orders.length = 0 then
    .ok (st, none, [])
  else
    match closeAllLoop env cids 0 st.orders.length st with
    | .error e => .error e
    | .ok (st', closed, evs) => .ok (st', some closed, evs)

/-- Debut.updateCandles: before the swap, pop the oldest candle when the
window holds 10 and replace the method by the fast version; the fast version
always pops before unshifting the new candle at the front. -/
def updateCandles (candle : Candle) (st : EngineState) : EngineState :=
  if st.candlesFast then
    { st with candles := candle :: st.candles.dropLast }
  else if st.candles.length = 10 then
    { st with candles := candle :: st.candles.dropLast, candlesFast := true }
  else
    { st with candles := candle :: st.candles }

/-- Debut.handler, the per-tick control flow: compute whether the interval
changed, run the onBeforeTick veto pipeline (a veto drops the tick), apply
the tick price in place inside an unchanged interval, run onTick, and on an
interval change run onCandle and onAfterCandle with the closing candle and
rotate the window. Assigning index 0 of an empty candle array creates the
first entry. Hook failures here are uncaught and propagate. -/
def handler (env : Env) (tick : Candle) (st : EngineState) :
    Except String (EngineState × List Event) :=
  match st.candles with
  | [] =>
    match asyncSkipReduce (fun i => Event.candleHook .beforeTick i tick)
        env.beforeTickHooks tick 0 with
    | (.error e, _) => .error e
    | (.ok true, evs) => .ok (st, evs)
    | (.ok false, evs) =>
      let st1 := { st with candles := [tick] }
      match asyncReduce (fun i => Event.candleHook .onTick i tick)
          env.tickHooks tick 0 with
      | (.error e, _) => .error e
      | (.ok _, evs1) => .ok (st1, evs ++ evs1)
  | c0 :: rest =>
    let change := decide (c0.time ≠ tick.time)
    match asyncSkipReduce (fun i => Event.candleHook .beforeTick i tick)
        env.beforeTickHooks tick 0 with
    | (.error e, _) => .error e
    | (.ok true, evs) => .ok (st, evs)
    | (.ok false, evs) =>
      let st1 := if change then st else { st with candles := tick :: rest }
      match asyncReduce (fun i => Event.candleHook .onTick i tick)
          env.tickHooks tick 0 with
      | (.error e, _) => .error e
      | (.ok _, evs1) =>
        if change then
          match asyncReduce (fun i => Event.candleHook .onCandle i c0)
              env.candleHooks c0 0 with
          | (.error e, _) => .error e
          | (.ok _, evs2) =>
            match asyncReduce (fun i => Event.candleHook .onAfterCandle i c0)
                env.afterCandleHooks c0 0 with
            | (.error e, _) => .error e
            | (.ok _, evs3) =>
              .ok (updateCandles tick st1, evs ++ evs1 ++ evs2 ++ evs3)
        else
          .ok (st1, evs ++ evs1)

/-- Feed a finite tick sequence through the handler, as the learn replay loop
does, fully awaiting each cycle before the next. -/
def runTicks (env : Env) : List Candle → EngineState →
    Except String (EngineState × List Event)
  | [], st => .ok (st, [])
  | t :: rest, st =>
    match handler env t st with
    | .error e => .error e
    | .ok (st1, evs) =>
      match runTicks env rest st1 with
      | .error e => .error e
      | .ok (st2, evs') => .ok (st2, evs ++ evs')

/-- Source getter currentCandle, this.candles[0]. -/
def currentCandle (st : EngineState) : Option Candle := st.candles[0]?

/-- Source getter prevCandle, this.candles[1], the last closed candle. -/
def prevCandle (st : EngineState) : Option Candle := st.candles[1]?

/- Concrete fixtures used by witnesses and counterexamples. -/

def exOpts : DebutOpts :=
  { broker := none
    ticker := "AAPL"
    currency := "USD"
    interval := "1min"
    amount := 100
    sandbox := false
    margin := false
    instrumentType := "SPOT"
    fee := 3 / 10000
    lotsMultiplier := 1
    equityLevel := 1 }

def exInstrument : Instrument :=
  { ticker := "AAPL", figi := "FG1", lot := 1, pipSize := 1 / 100, id := "id1" }

/-- Environment with no plugins and an always succeeding transport. -/
def baseEnv : Env :=
  { opts := exOpts
    instrument := exInstrument
    author := "Debut"
    learning := false
    beforeOpenHooks := []
    onOpenHooks := []
    beforeCloseHooks := []
    onCloseHooks := []
    beforeTickHooks := []
    tickHooks := []
    candleHooks := []
    afterCandleHooks := []
    placeOrder := fun p => .ok { p with orderId := some 1, executedLots := p.lots }
    prepareLots := fun l _ => l }

def exCandle : Candle := ⟨10, 10, 10, 10, 0, 0⟩

def st0 : EngineState := ⟨[], [exCandle], false⟩

/-- Environment whose single onBeforeOpen hook throws. -/
def throwEnv : Env := { baseEnv with beforeOpenHooks := [fun _ => .error "boom"] }

/-- Environment with one passive onOpen hook. -/
def openHookEnv : Env := { baseEnv with onOpenHooks := [fun _ => .ok ()] }

/-- Environment whose transport rejects every submission. -/
def failEnv : Env := { baseEnv with placeOrder := fun _ => .error "rejected" }

/-- Environment with one passive onCandle hook, for the tick scenario. -/
def env9 : Env := { baseEnv with candleHooks := [fun _ => .ok ()] }

def tick1 : Candle := ⟨10, 10, 10, 10, 0, 0⟩
def tick2 : Candle := ⟨10, 11, 10, 11, 0, 0⟩
def tick3 : Candle := ⟨12, 12, 12, 12, 0, 60⟩

/-- A pending order that was never executed: no orderId key. -/
def pendingNoId : Order := mkOpenPendingOrder baseEnv 7 .BUY exCandle

/-- An executed order at rest in the book. -/
def closingW : Order :=
  { mkOpenPendingOrder baseEnv 5 .BUY exCandle with orderId := some 3, executedLots := some 10 }

def pendX : Order := mkOpenPendingOrder openHookEnv 7 .BUY exCandle

def execX : Order := { pendX with orderId := some 1, executedLots := pendX.lots }

/- Helper lemmas about the pipeline and the book primitives. -/

lemma range_map_shift (f : Nat → Event) (n i : Nat) :
    (List.range (n + 1)).map (fun j => f (i + j)) =
      f i :: (List.range n).map (fun j => f (i + 1 + j)) := by
  rw [List.range_succ_eq_map, List.map_cons, List.map_map]
  refine congrArg₂ _ (by simp) ?_
  refine List.map_congr_left fun j _ => ?_
  simp only [Function.comp_apply]
  congr 1
  omega

/-- A veto pipeline run where every hook before h passes and h does not pass
stops exactly at h: the result is the result of h and precisely the hooks up
to and including h were invoked. -/
lemma asyncSkipReduce_stop {α : Type} (mkEv : Nat → Event)
    (pre post : List (α → Except String Bool)) (h : α → Except String Bool) (a : α)
    (hpre : ∀ g ∈ pre, g a = .ok false) (hh : h a ≠ .ok false) :
    ∀ i, asyncSkipReduce mkEv (pre ++ h :: post) a i =
      (h a, (List.range (pre.length + 1)).map fun j => mkEv (i + j)) := by
  induction pre with
  | nil =>
    intro i
    rcases hcase : h a with e | b
    · simp [asyncSkipReduce, hcase, List.range_succ]
    · cases b
      · exact absurd hcase hh
      · simp [asyncSkipReduce, hcase, List.range_succ]
  | cons g pre ih =>
    intro i
    have hg : g a = .ok false := hpre g (List.mem_cons_self g pre)
    rw [List.cons_append]
    simp only [asyncSkipReduce, hg]
    rw [ih (fun g' hg' => hpre g' (List.mem_cons_of_mem _ hg')) (i + 1)]
    simp only [List.length_cons]
    conv_rhs => rw [range_map_shift]

/-- Every event a veto pipeline run emits is a hook invocation event built by
mkEv; in particular no transport submission event arises there. -/
lemma asyncSkipReduce_events_shape {α : Type} (mkEv : Nat → Event)
    (hooks : List (α → Except String Bool)) (a : α) :
    ∀ i ev, ev ∈ (asyncSkipReduce mkEv hooks a i).2 → ∃ j, ev = mkEv j := by
  induction hooks with
  | nil => intro i ev hev; simp [asyncSkipReduce] at hev
  | cons h rest ih =>
    intro i ev hev
    simp only [asyncSkipReduce] at hev
    rcases hcase : h a with e | b
    · rw [hcase] at hev
      simp at hev
      exact ⟨i, hev⟩
    · cases b
      · rw [hcase] at hev
        simp at hev
        rcases hev with hev | hev
        · exact ⟨i, hev⟩
        · exact ih (i + 1) ev hev
      · rw [hcase] at hev
        simp at hev
        exact ⟨i, hev⟩

/-- A side-effect pipeline run where every hook before h succeeds and h fails
stops exactly at h, having invoked precisely the hooks up to and including
h. -/
lemma asyncReduce_stop {α : Type} (mkEv : Nat → Event)
    (pre post : List (α → Except String Unit)) (h : α → Except String Unit) (a : α) (e : String)
    (hpre : ∀ g ∈ pre, g a = .ok ()) (hh : h a = .error e) :
    ∀ i, asyncReduce mkEv (pre ++ h :: post) a i =
      (.error e, (List.range (pre.length + 1)).map fun j => mkEv (i + j)) := by
  induction pre with
  | nil =>
    intro i
    simp [asyncReduce, hh, List.range_succ]
  | cons g pre ih =>
    intro i
    have hg : g a = .ok () := hpre g (List.mem_cons_self g pre)
    rw [List.cons_append]
    simp only [asyncReduce, hg]
    rw [ih (fun g' hg' => hpre g' (List.mem_cons_of_mem _ hg')) (i + 1)]
    simp only [List.length_cons]
    conv_rhs => rw [range_map_shift]

/-- Every event a side-effect pipeline run emits is a hook invocation event
built by mkEv. -/
lemma asyncReduce_events_shape {α : Type} (mkEv : Nat → Event)
    (hooks : List (α → Except String Unit)) (a : α) :
    ∀ i ev, ev ∈ (asyncReduce mkEv hooks a i).2 → ∃ j, ev = mkEv j := by
  induction hooks with
  | nil => intro i ev hev; simp [asyncReduce] at hev
  | cons h rest ih =>
    intro i ev hev
    simp only [asyncReduce] at hev
    rcases hcase : h a with e | u
    · rw [hcase] at hev
      simp at hev
      exact ⟨i, hev⟩
    · rw [hcase] at hev
      simp at hev
      rcases hev with hev | hev
      · exact ⟨i, hev⟩
      · exact ih (i + 1) ev hev

/- Helper lemmas about the order book primitives. -/

lemma removeFirstByCid_append_fresh (orders : List Order) (p : Order)
    (h : ∀ o ∈ orders, o.cid ≠ p.cid) :
    removeFirstByCid p.cid (orders ++ [p]) = orders := by
  induction orders with
  | nil => simp [removeFirstByCid]
  | cons o os ih =>
    have ho : o.cid ≠ p.cid := h o (List.mem_cons_self o os)
    simp only [List.cons_append, removeFirstByCid, if_neg ho, List.append_eq]
    rw [ih fun o' ho' => h o' (List.mem_cons_of_mem _ ho')]

lemma removeFirstByCid_append (pre post : List Order) (x : Order) (cid : ℚ)
    (hpre : ∀ o ∈ pre, o.cid ≠ cid) (hx : x.cid = cid) :
    removeFirstByCid cid (pre ++ x :: post) = pre ++ post := by
  induction pre with
  | nil => simp [removeFirstByCid, hx]
  | cons o os ih =>
    have ho : o.cid ≠ cid := hpre o (List.mem_cons_self o os)
    simp only [List.cons_append, removeFirstByCid, if_neg ho, List.append_eq]
    rw [ih fun o' ho' => hpre o' (List.mem_cons_of_mem _ ho')]

lemma setProcessing_eq (pre post : List Order) (x : Order) (cid : ℚ) (b : Bool)
    (hpre : ∀ o ∈ pre, o.cid ≠ cid) (hpost : ∀ o ∈ post, o.cid ≠ cid) (hx : x.cid = cid) :
    setProcessing (pre ++ x :: post) cid b = pre ++ { x with processing := b } :: post := by
  unfold setProcessing
  rw [List.map_append, List.map_cons]
  have h1 : pre.map (fun o => if o.cid = cid then { o with processing := b } else o) = pre := by
    rw [List.map_congr_left fun o ho => if_neg (hpre o ho)]
    exact List.map_id pre
  have h2 : post.map (fun o => if o.cid = cid then { o with processing := b } else o) = post := by
    rw [List.map_congr_left fun o ho => if_neg (hpost o ho)]
    exact List.map_id post
  rw [h1, h2, if_pos hx]

lemma containsCid_eq_false (l : List Order) (cid : ℚ) (h : ∀ o ∈ l, o.cid ≠ cid) :
    containsCid cid l = false := by
  induction l with
  | nil => rfl
  | cons o os ih =>
    have ho : o.cid ≠ cid := h o (List.mem_cons_self o os)
    simp only [containsCid, if_neg ho]
    exact ih fun o' ho' => h o' (List.mem_cons_of_mem _ ho')

lemma update_processing_self (o : Order) (h : o.processing = false) :
    { o with processing := false } = o := by
  cases o
  simp_all

lemma length_setProcessing (l : List Order) (cid : ℚ) (b : Bool) :
    (setProcessing l cid b).length = l.length := by
  simp [setProcessing]

lemma length_removeFirstByCid (l : List Order) (cid : ℚ) :
    l.length ≤ (removeFirstByCid cid l).length + 1 := by
  induction l with
  | nil => simp [removeFirstByCid]
  | cons o os ih =>
    simp only [removeFirstByCid, List.length_cons]
    by_cases h : o.cid = cid
    · simp [h]
    · simp only [if_neg h, List.length_cons]
      omega

lemma length_closeCatchRestore (l : List Order) (x : Order) :
    l.length ≤ (closeCatchRestore l x).length := by
  unfold closeCatchRestore
  by_cases h : containsCid x.cid l
  · simp [h, length_setProcessing]
  · simp [h, length_setProcessing]

/- Claim theorems. -/

/-- C10: this.opts is the input merged over the defaults instrumentType SPOT,
fee 0.0003, lotsMultiplier 1, equityLevel 1 (a key present in the input keeps
the caller value, an absent key gets the default), and construction throws a
Core error synchronously if and only if the effective instrumentType is
FUTURES while the broker is not binance. -/
theorem debut_constructor_merge_and_validate (input : DebutOptionsInput) :
    (debutConstructor input = .error futuresErrMsg ↔
      (mergeOptions input).instrumentType = "FUTURES" ∧ input.broker ≠ some "binance") ∧
    (mergeOptions input).broker = input.broker ∧
    (mergeOptions input).instrumentType = input.instrumentType.getD "SPOT" ∧
    (mergeOptions input).fee = input.fee.getD (3 / 10000) ∧
    (mergeOptions input).lotsMultiplier = input.lotsMultiplier.getD 1 ∧
    (mergeOptions input).equityLevel = input.equityLevel.getD 1 ∧
    (¬((mergeOptions input).instrumentType = "FUTURES" ∧ input.broker ≠ some "binance") →
      debutConstructor input = .ok (mergeOptions input)) := by
  refine ⟨?_, rfl, rfl, rfl, rfl, rfl, ?_⟩
  · simp only [debutConstructor]
    by_cases hcond : (mergeOptions input).broker ≠ some "binance" ∧
        (mergeOptions input).instrumentType = "FUTURES"
    · rw [if_pos hcond]
      exact iff_of_true rfl ⟨hcond.2, hcond.1⟩
    · rw [if_neg hcond]
      exact iff_of_false (by simp) fun hcon => hcond ⟨hcon.2, hcon.1⟩
  · intro hno
    simp only [debutConstructor]
    rw [if_neg fun hcond => hno ⟨hcond.2, hcond.1⟩]

def inputW : DebutOptionsInput :=
  { broker := none
    ticker := "AAPL"
    currency := "USD"
    interval := "1min"
    amount := 100
    sandbox := false
    margin := false
    instrumentType := none
    fee := none
    lotsMultiplier := some 2
    equityLevel := none }

theorem debut_constructor_merge_and_validate_witness :
    debutConstructor inputW = .ok (mergeOptions inputW) :=
  (debut_constructor_merge_and_validate inputW).2.2.2.2.2.2 (by decide)

/-- C6: closeOrder on an order already marked processing, or on an order with
no broker order id (still pending, never executed), is a no-op: it returns
undefined, emits no event at all (in particular no transport submission and
no hook invocation) and leaves the whole engine state unchanged. The
processing branch is exactly the guard that makes a second close attempt
issued while a close of the same order is in flight a no-op. -/
theorem closeOrder_processing_or_pending_noop (env : Env) (cid : ℚ)
    (closing : Order) (st : EngineState)
    (h : closing.processing = true ∨ closing.orderId = none) :
    closeOrder env cid closing st = .ok ⟨st, none, []⟩ := by
  unfold closeOrder
  rcases h with h | h
  · simp [h]
  · simp [h]

/-- An executed order whose close is already in flight. -/
def procOrder : Order := { closingW with processing := true }

theorem closeOrder_processing_or_pending_noop_witness :
    closeOrder baseEnv 0 procOrder st0 = .ok ⟨st0, none, []⟩ :=
  closeOrder_processing_or_pending_noop baseEnv 0 procOrder st0 (Or.inl rfl)

/-- C7: when every onBeforeOpen hook before some hook h passes and h vetoes
(returns truthy), createOrder returns undefined without raising an error, the
order book and the whole state are untouched, exactly the hooks up to and
including h were invoked and no transport submission event exists in the
trace. -/
theorem createOrder_veto_no_insert (env : Env) (cid : ℚ) (op : OrderType)
    (st : EngineState) (c : Candle) (cs : List Candle)
    (pre post : List (Order → Except String Bool)) (h : Order → Except String Bool)
    (hc : st.candles = c :: cs)
    (hhooks : env.beforeOpenHooks = pre ++ h :: post)
    (hpre : ∀ g ∈ pre, g (mkOpenPendingOrder env cid op c) = .ok false)
    (hveto : h (mkOpenPendingOrder env cid op c) = .ok true) :
    createOrder env cid op st =
      .ok ⟨st, none, (List.range (pre.length + 1)).map fun j =>
        Event.hook .beforeOpen j st.orders⟩ ∧
    ∀ q : Order, Event.place q ∉
      ((List.range (pre.length + 1)).map fun j => Event.hook .beforeOpen j st.orders) := by
  have hstop := asyncSkipReduce_stop (fun i => Event.hook .beforeOpen i st.orders) pre post h
    (mkOpenPendingOrder env cid op c) hpre (by simp [hveto]) 0
  constructor
  · simp only [createOrder, hc, List.head?_cons, hhooks]
    rw [hstop, hveto]
    simp only [Nat.zero_add]
  · intro q hq
    simp [List.mem_map] at hq

def vetoEnv : Env := { baseEnv with beforeOpenHooks := [fun _ => .ok true] }

theorem createOrder_veto_no_insert_witness :
    createOrder vetoEnv 7 .BUY st0 =
      .ok ⟨st0, none, [Event.hook .beforeOpen 0 []]⟩ ∧
    ∀ q : Order, Event.place q ∉ [Event.hook .beforeOpen 0 ([] : List Order)] := by
  have := createOrder_veto_no_insert vetoEnv 7 .BUY st0 exCandle [] [] []
    (fun _ => .ok true) rfl rfl (by intro g hg; cases hg) rfl
  simpa [List.range_succ] using this

/-- C4: when the onBeforeOpen pipeline passes and the transport rejects the
submission, createOrder returns undefined and the engine state is exactly
the state before the call: the optimistically appended pending order is
removed again and nothing else is added, removed or reordered. Freshness of
the random correlation id is the hypothesis hfresh. -/
theorem createOrder_place_failure_restores_book (env : Env) (cid : ℚ)
    (op : OrderType) (st : EngineState) (c : Candle) (cs : List Candle)
    (e : String) (evs : List Event)
    (hc : st.candles = c :: cs)
    (hskip : asyncSkipReduce (fun i => Event.hook .beforeOpen i st.orders)
        env.beforeOpenHooks (mkOpenPendingOrder env cid op c) 0 = (.ok false, evs))
    (hplace : env.placeOrder (mkOpenPendingOrder env cid op c) = .error e)
    (hfresh : ∀ o ∈ st.orders, o.cid ≠ cid) :
    createOrder env cid op st =
      .ok ⟨st, none, evs ++ [Event.place (mkOpenPendingOrder env cid op c),
        Event.logCore e]⟩ := by
  have hrm : removeFirstByCid (mkOpenPendingOrder env cid op c).cid
      (st.orders ++ [mkOpenPendingOrder env cid op c]) = st.orders :=
    removeFirstByCid_append_fresh _ _ fun o ho => hfresh o ho
  simp only [createOrder, hc, List.head?_cons, hskip, hplace]
  rw [hrm, ← hc]

theorem createOrder_place_failure_restores_book_witness :
    createOrder failEnv 7 .BUY st0 =
      .ok ⟨st0, none, [Event.place (mkOpenPendingOrder failEnv 7 .BUY exCandle),
        Event.logCore "rejected"]⟩ := by
  have := createOrder_place_failure_restores_book failEnv 7 .BUY st0 exCandle [] "rejected" []
    rfl rfl rfl (by intro o ho; cases ho)
  simpa using this

/-- C2 counterexample: a single onBeforeOpen hook that throws. The claim
says the failure propagates out of createOrder uncaught, so the run should
be an error; instead the try block of createOrder catches it, logs it as a
Core error and returns undefined (ret = none) with an ok result. -/
theorem createOrder_hook_throw_counterexample :
    createOrder throwEnv 7 .BUY st0 =
      .ok ⟨⟨[], [exCandle], false⟩, none,
        [Event.hook .beforeOpen 0 [], Event.logCore "boom"]⟩ := by
  rfl

/-- C2 amended: a plugin hook that throws while createOrder or closeOrder is
running stops the pipeline (no later plugin is invoked on that hook call,
last conjunct) but does NOT propagate to the caller: the operation catches
it, logs it as a Core error after the hook events, and returns undefined.
The four cases cover onBeforeOpen and onOpen inside createOrder and
onBeforeClose and onClose inside closeOrder. -/
theorem order_hook_failure_caught :
    (∀ (env : Env) (cid : ℚ) (op : OrderType) (st : EngineState) (c : Candle)
        (cs : List Candle) (e : String) (evs : List Event),
      st.candles = c :: cs →
      asyncSkipReduce (fun i => Event.hook .beforeOpen i st.orders)
          env.beforeOpenHooks (mkOpenPendingOrder env cid op c) 0 = (.error e, evs) →
      ∃ st', createOrder env cid op st = .ok ⟨st', none, evs ++ [Event.logCore e]⟩) ∧
    (∀ (env : Env) (cid : ℚ) (op : OrderType) (st : EngineState) (c : Candle)
        (cs : List Candle) (ord : Order) (e : String) (evs evs2 : List Event),
      st.candles = c :: cs →
      asyncSkipReduce (fun i => Event.hook .beforeOpen i st.orders)
          env.beforeOpenHooks (mkOpenPendingOrder env cid op c) 0 = (.ok false, evs) →
      env.placeOrder (mkOpenPendingOrder env cid op c) = .ok ord →
      asyncReduce (fun i => Event.hook .onOpen i
          (st.orders ++ [mkOpenPendingOrder env cid op c]))
          env.onOpenHooks ord 0 = (.error e, evs2) →
      ∃ st', createOrder env cid op st =
        .ok ⟨st', none, evs ++ [Event.place (mkOpenPendingOrder env cid op c)] ++ evs2 ++
          [Event.logCore e]⟩) ∧
    (∀ (env : Env) (cid : ℚ) (closing : Order) (st : EngineState) (c : Candle)
        (cs : List Candle) (e : String) (evs : List Event),
      closing.processing = false →
      closing.orderId.isNone = false →
      st.candles = c :: cs →
      asyncSkipReduce (fun i => Event.hook .beforeClose i
          (setProcessing st.orders closing.cid true))
          env.beforeCloseHooks
          (mkClosePendingOrder env cid closing c, { closing with processing := true }) 0 =
        (.error e, evs) →
      ∃ st', closeOrder env cid closing st = .ok ⟨st', none, evs ++ [Event.logCore e]⟩) ∧
    (∀ (env : Env) (cid : ℚ) (closing : Order) (st : EngineState) (c : Candle)
        (cs : List Candle) (ord : Order) (e : String) (evs evs2 : List Event),
      closing.processing = false →
      closing.orderId.isNone = false →
      st.candles = c :: cs →
      asyncSkipReduce (fun i => Event.hook .beforeClose i
          (setProcessing st.orders closing.cid true))
          env.beforeCloseHooks
          (mkClosePendingOrder env cid closing c, { closing with processing := true }) 0 =
        (.ok false, evs) →
      env.placeOrder (mkClosePendingOrder env cid closing c) = .ok ord →
      asyncReduce (fun i => Event.hook .onClose i
          (removeFirstByCid closing.cid (setProcessing st.orders closing.cid true)))
          env.onCloseHooks (ord, { closing with processing := true }) 0 = (.error e, evs2) →
      ∃ st', closeOrder env cid closing st =
        .ok ⟨st', none, evs ++ [Event.place (mkClosePendingOrder env cid closing c)] ++ evs2 ++
          [Event.logCore e]⟩) ∧
    (∀ (pre post : List (Order → Except String Bool)) (h : Order → Except String Bool)
        (p : Order) (e : String) (mkEv : Nat → Event),
      (∀ g ∈ pre, g p = .ok false) → h p = .error e →
      (asyncSkipReduce mkEv (pre ++ h :: post) p 0).2.length = pre.length + 1) := by
  refine ⟨?_, ?_, ?_, ?_, ?_⟩
  · intro env cid op st c cs e evs hc hskip
    refine ⟨{ st with orders :=
      removeFirstByCid (mkOpenPendingOrder env cid op c).cid st.orders }, ?_⟩
    simp only [createOrder, hc, List.head?_cons, hskip]
  · intro env cid op st c cs ord e evs evs2 hc hskip hplace hopen
    refine ⟨{ st with orders := (removeFirstByCid (mkOpenPendingOrder env cid op c).cid
      (st.orders ++ [mkOpenPendingOrder env cid op c])) }, ?_⟩
    simp only [createOrder, hc, List.head?_cons, hskip, hplace, hopen]
  · intro env cid closing st c cs e evs hproc hnone hc hskip
    refine ⟨{ st with orders := (closeCatchRestore (setProcessing st.orders closing.cid true)
      ({ closing with processing := true })) }, ?_⟩
    unfold closeOrder
    simp only [hproc, hnone, Bool.or_self, Bool.false_eq_true, if_false, hc,
      List.head?_cons, hskip]
  · intro env cid closing st c cs ord e evs evs2 hproc hnone hc hskip hplace hclose
    refine ⟨{ st with orders := (closeCatchRestore
      (removeFirstByCid closing.cid (setProcessing st.orders closing.cid true))
      ({ closing with processing := true })) }, ?_⟩
    unfold closeOrder
    simp only [hproc, hnone, Bool.or_self, Bool.false_eq_true, if_false, hc,
      List.head?_cons, hskip, hplace, hclose]
  · intro pre post h p e mkEv hpre hh
    rw [asyncSkipReduce_stop mkEv pre post h p hpre (by simp [hh]) 0]
    simp

theorem order_hook_failure_caught_witness :
    ∃ st', createOrder throwEnv 7 .BUY st0 =
      .ok ⟨st', none, [Event.hook .beforeOpen 0 []] ++ [Event.logCore "boom"]⟩ :=
  order_hook_failure_caught.1 throwEnv 7 .BUY st0 exCandle [] "boom"
    [Event.hook .beforeOpen 0 []] rfl rfl

/-- C3 counterexample: one passive onOpen plugin, transport succeeds. The
claim says every onOpen hook observes the book with the ExecutedOrder already
substituted for the PendingOrder; in the run below the only onOpen event
observes the book [pendX] that still holds the pending order (orderId is
absent), because replacePendingOrder only runs after the hook; the final book
is [execX] with pendX distinct from execX. -/
theorem onOpen_observes_pending_counterexample :
    createOrder openHookEnv 7 .BUY st0 =
      .ok ⟨⟨[execX], [exCandle], false⟩, some execX,
        [Event.place pendX, Event.hook .onOpen 0 [pendX]]⟩ ∧
    pendX.orderId = none ∧ pendX ≠ execX := by
  refine ⟨rfl, rfl, fun hcon => ?_⟩
  have := congrArg Order.orderId hcon
  simp [pendX, execX, mkOpenPendingOrder] at this

/-- C3 amended: when the onBeforeOpen pipeline passes, the transport
succeeds and every onOpen hook succeeds, createOrder returns the executed
order and the final book is the one with the pending entry replaced by cid;
however the replacement happens only after the onOpen hooks: every onOpen
hook event observes the book that still contains the PendingOrder appended
(second conjunct). -/
theorem createOrder_replaces_after_onOpen (env : Env) (cid : ℚ) (op : OrderType)
    (st : EngineState) (c : Candle) (cs : List Candle) (ord : Order)
    (evs evs2 : List Event)
    (hc : st.candles = c :: cs)
    (hskip : asyncSkipReduce (fun i => Event.hook .beforeOpen i st.orders)
        env.beforeOpenHooks (mkOpenPendingOrder env cid op c) 0 = (.ok false, evs))
    (hplace : env.placeOrder (mkOpenPendingOrder env cid op c) = .ok ord)
    (hopen : asyncReduce (fun i => Event.hook .onOpen i
        (st.orders ++ [mkOpenPendingOrder env cid op c]))
        env.onOpenHooks ord 0 = (.ok (), evs2)) :
    createOrder env cid op st =
      .ok ⟨{ st with orders := (replaceFirstByCid ord
          (st.orders ++ [mkOpenPendingOrder env cid op c])) }, some ord,
        evs ++ [Event.place (mkOpenPendingOrder env cid op c)] ++ evs2⟩ ∧
    ∀ ev ∈ evs2, ∃ j, ev = Event.hook .onOpen j
      (st.orders ++ [mkOpenPendingOrder env cid op c]) := by
  constructor
  · simp only [createOrder, hc, List.head?_cons, hskip, hplace, hopen]
  · intro ev hev
    exact asyncReduce_events_shape
      (fun i => Event.hook .onOpen i (st.orders ++ [mkOpenPendingOrder env cid op c]))
      env.onOpenHooks ord 0 ev (by rw [hopen] at *; exact hev)

def pendB : Order := mkOpenPendingOrder baseEnv 7 .BUY exCandle

def execB : Order := { pendB with orderId := some 1, executedLots := pendB.lots }

theorem createOrder_replaces_after_onOpen_witness :
    createOrder baseEnv 7 .BUY st0 =
      .ok ⟨⟨[execB], [exCandle], false⟩, some execB,
        [] ++ [Event.place pendB] ++ []⟩ :=
  (createOrder_replaces_after_onOpen baseEnv 7 .BUY st0 exCandle [] execB [] []
    rfl rfl rfl rfl).1

/-- C5: when a close reaches the transport (guards passed, no veto, the
closing order sits in the book with a unique cid) and the submission fails,
closeOrder catches the error (it is logged, not re-thrown), reinserts the
original order at the front of the book with its processing flag cleared by
the finally block, and returns undefined. -/
theorem closeOrder_place_failure_restores_front (env : Env) (cid : ℚ)
    (closing : Order) (st : EngineState) (c : Candle) (cs : List Candle)
    (pre post : List Order) (e : String) (evs : List Event)
    (hproc : closing.processing = false)
    (hnone : closing.orderId.isNone = false)
    (hc : st.candles = c :: cs)
    (horders : st.orders = pre ++ closing :: post)
    (hpre : ∀ o ∈ pre, o.cid ≠ closing.cid)
    (hpost : ∀ o ∈ post, o.cid ≠ closing.cid)
    (hskip : asyncSkipReduce (fun i => Event.hook .beforeClose i
        (setProcessing st.orders closing.cid true))
        env.beforeCloseHooks
        (mkClosePendingOrder env cid closing c, { closing with processing := true }) 0 =
      (.ok false, evs))
    (hplace : env.placeOrder (mkClosePendingOrder env cid closing c) = .error e) :
    closeOrder env cid closing st =
      .ok ⟨{ st with orders := closing :: (pre ++ post) }, none,
        evs ++ [Event.place (mkClosePendingOrder env cid closing c), Event.logCore e]⟩ := by
  have hppmem : ∀ o ∈ pre ++ post, o.cid ≠ closing.cid := by
    intro o ho
    rcases List.mem_append.1 ho with h | h
    exacts [hpre o h, hpost o h]
  have hrm : removeFirstByCid closing.cid (setProcessing st.orders closing.cid true) =
      pre ++ post := by
    rw [horders, setProcessing_eq pre post closing closing.cid true hpre hpost rfl]
    exact removeFirstByCid_append pre post _ closing.cid hpre rfl
  have hrestore : closeCatchRestore (pre ++ post) { closing with processing := true } =
      closing :: (pre ++ post) := by
    unfold closeCatchRestore
    rw [show ({ closing with processing := true } : Order).cid = closing.cid from rfl,
      containsCid_eq_false (pre ++ post) closing.cid hppmem]
    simp only [Bool.false_eq_true, if_false]
    have hsp := setProcessing_eq [] (pre ++ post) ({ closing with processing := true })
      closing.cid false (by intro o ho; cases ho) hppmem rfl
    simp only [List.nil_append] at hsp
    rw [hsp]
    rw [update_processing_self closing hproc]
  unfold closeOrder
  simp only [hproc, hnone, Bool.or_self, Bool.false_eq_true, if_false, hc,
    List.head?_cons, hskip, hplace]
  rw [hrm, hrestore, ← hc]

def stW : EngineState := ⟨[closingW], [exCandle], false⟩

theorem closeOrder_place_failure_restores_front_witness :
    closeOrder failEnv 9 closingW stW =
      .ok ⟨⟨[closingW], [exCandle], false⟩, none,
        [Event.place (mkClosePendingOrder failEnv 9 closingW exCandle),
          Event.logCore "rejected"]⟩ := by
  have := closeOrder_place_failure_restores_front failEnv 9 closingW stW exCandle []
    [] [] "rejected" [] rfl rfl rfl rfl (by intro o ho; cases ho) (by intro o ho; cases ho)
    rfl rfl
  simpa using this

/- Lemmas for the candle window bound. -/

lemma updateCandles_le (st : EngineState) (c : Candle) (h : st.candles.length ≤ 10) :
    (updateCandles c st).candles.length ≤ 10 := by
  unfold updateCandles
  by_cases hf : st.candlesFast = true
  · simp only [hf, if_true, List.length_cons, List.length_dropLast]
    omega
  · simp only [hf]
    by_cases h10 : st.candles.length = 10
    · simp only [h10, if_true, if_false, Bool.false_eq_true, List.length_cons,
        List.length_dropLast]
      omega
    · simp only [h10, if_false, Bool.false_eq_true, List.length_cons]
      omega

lemma handler_candles_le (env : Env) (tick : Candle) (st st' : EngineState)
    (evs : List Event) (h : st.candles.length ≤ 10)
    (hr : handler env tick st = .ok (st', evs)) : st'.candles.length ≤ 10 := by
  rcases hcs : st.candles with _ | ⟨c0, rest⟩
  · simp only [handler, hcs] at hr
    rcases hskip : asyncSkipReduce (fun i => Event.candleHook .beforeTick i tick)
        env.beforeTickHooks tick 0 with ⟨res, evs0⟩
    rw [hskip] at hr
    rcases res with e | b
    · simp at hr
    · cases b with
      | true =>
        simp only [Except.ok.injEq, Prod.mk.injEq] at hr
        obtain ⟨h1, _⟩ := hr
        rw [← h1]
        exact h
      | false =>
        rcases hred : asyncReduce (fun i => Event.candleHook .onTick i tick)
            env.tickHooks tick 0 with ⟨res1, evs1⟩
        rw [hred] at hr
        rcases res1 with e | u
        · simp at hr
        · simp only [Except.ok.injEq, Prod.mk.injEq] at hr
          obtain ⟨h1, _⟩ := hr
          rw [← h1]
          simp
  · simp only [handler, hcs] at hr
    rcases hskip : asyncSkipReduce (fun i => Event.candleHook .beforeTick i tick)
        env.beforeTickHooks tick 0 with ⟨res, evs0⟩
    rw [hskip] at hr
    rcases res with e | b
    · simp at hr
    · cases b with
      | true =>
        simp only [Except.ok.injEq, Prod.mk.injEq] at hr
        obtain ⟨h1, _⟩ := hr
        rw [← h1]
        exact h
      | false =>
        rcases hred : asyncReduce (fun i => Event.candleHook .onTick i tick)
            env.tickHooks tick 0 with ⟨res1, evs1⟩
        rw [hred] at hr
        rcases res1 with e | u
        · simp at hr
        · by_cases hch : c0.time = tick.time
          · have hdec : decide (c0.time ≠ tick.time) = false := by simp [hch]
            rw [hdec] at hr
            simp only [Bool.false_eq_true, if_false, Except.ok.injEq, Prod.mk.injEq] at hr
            obtain ⟨h1, _⟩ := hr
            rw [← h1]
            simp only [List.length_cons]
            rw [hcs] at h
            simpa using h
          · have hdec : decide (c0.time ≠ tick.time) = true := by simp [hch]
            rw [hdec] at hr
            rcases hcd : asyncReduce (fun i => Event.candleHook .onCandle i c0)
                env.candleHooks c0 0 with ⟨res2, evs2⟩
            rw [hcd] at hr
            rcases res2 with e | u2
            · simp at hr
            · rcases hac : asyncReduce (fun i => Event.candleHook .onAfterCandle i c0)
                  env.afterCandleHooks c0 0 with ⟨res3, evs3⟩
              rw [hac] at hr
              rcases res3 with e | u3
              · simp at hr
              · simp only [if_true, Except.ok.injEq, Prod.mk.injEq] at hr
                obtain ⟨h1, _⟩ := hr
                rw [← h1]
                exact updateCandles_le st tick h

lemma runTicks_candles_le (env : Env) : ∀ (ticks : List Candle)
    (st st' : EngineState) (evs : List Event), st.candles.length ≤ 10 →
    runTicks env ticks st = .ok (st', evs) → st'.candles.length ≤ 10 := by
  intro ticks
  induction ticks with
  | nil =>
    intro st st' evs h hr
    simp only [runTicks, Except.ok.injEq, Prod.mk.injEq] at hr
    obtain ⟨h1, _⟩ := hr
    rw [← h1]
    exact h
  | cons t rest ih =>
    intro st st' evs h hr
    unfold runTicks at hr
    rcases hh : handler env t st with e | ⟨st1, evs1⟩
    · rw [hh] at hr
      simp at hr
    · rw [hh] at hr
      dsimp only at hr
      rcases hrest : runTicks env rest st1 with e | ⟨st2, evs2⟩
      · rw [hrest] at hr
        simp at hr
      · rw [hrest] at hr
        simp only [Except.ok.injEq, Prod.mk.injEq] at hr
        obtain ⟨h1, _⟩ := hr
        rw [← h1]
        exact ih st1 st2 evs2 (handler_candles_le env t st st1 evs1 h hh) hrest

/-- C8: for every tick sequence fed to the handler from a state within the
bound, the candle window length never exceeds 10, and whenever an insertion
happens at capacity (length exactly 10) the evicted candle is the one popped
from the back, the highest index, which is the oldest since insertion is at
the front; this holds in both the pre-switch branch and the post warm-up
fast branch of updateCandles (second conjunct covers both by case analysis on
the candlesFast flag). -/
theorem candle_window_bounded_and_evicts_oldest :
    (∀ (env : Env) (ticks : List Candle) (st st' : EngineState) (evs : List Event),
      st.candles.length ≤ 10 → runTicks env ticks st = .ok (st', evs) →
      st'.candles.length ≤ 10) ∧
    (∀ (st : EngineState) (c : Candle), st.candles.length = 10 →
      (updateCandles c st).candles = c :: st.candles.dropLast) := by
  constructor
  · intro env ticks st st' evs h hr
    exact runTicks_candles_le env ticks st st' evs h hr
  · intro st c h10
    unfold updateCandles
    by_cases hf : st.candlesFast = true
    · simp [hf]
    · simp [hf, h10]

theorem candle_window_bounded_and_evicts_oldest_witness :
    ∃ st' evs, runTicks baseEnv [tick1] ⟨[], [], false⟩ = .ok (st', evs) ∧
      st'.candles.length ≤ 10 :=
  ⟨⟨[], [tick1], false⟩, [], rfl,
    candle_window_bounded_and_evicts_oldest.1 baseEnv [tick1] ⟨[], [], false⟩
      ⟨[], [tick1], false⟩ [] (by simp) rfl⟩

/-- C9: the tick stream with closes 10, 11 at time 0 and 12 at time 60, no
vetoing plugin and one onCandle plugin. After the second tick the current
candle (index 0) closes at 11 and no closed candle exists at index 1; after
the third tick the closed candle with close 11 sits at index 1, the current
candle at index 0 has open and close 12, and the trace of the whole run is
exactly one onCandle hook invocation receiving the closed candle. -/
theorem tick_scenario_candle_rotation :
    runTicks env9 [tick1, tick2] ⟨[], [], false⟩ = .ok (⟨[], [tick2], false⟩, []) ∧
    (currentCandle ⟨[], [tick2], false⟩).map Candle.c = some 11 ∧
    prevCandle ⟨[], [tick2], false⟩ = none ∧
    runTicks env9 [tick1, tick2, tick3] ⟨[], [], false⟩ =
      .ok (⟨[], [tick3, tick2], false⟩, [Event.candleHook .onCandle 0 tick2]) ∧
    (prevCandle ⟨[], [tick3, tick2], false⟩).map Candle.c = some 11 ∧
    (currentCandle ⟨[], [tick3, tick2], false⟩).map Candle.o = some 12 ∧
    (currentCandle ⟨[], [tick3, tick2], false⟩).map Candle.c = some 12 := by
  refine ⟨?_, rfl, rfl, ?_, rfl, rfl, rfl⟩
  · rfl
  · rfl

/-- With a current candle present, closeOrder cannot throw: every branch of
the try block is caught, the candle window is untouched and the book shrinks
by at most one entry. -/
lemma closeOrder_ok (env : Env) (cid : ℚ) (closing : Order) (st : EngineState)
    (c : Candle) (cs : List Candle) (hc : st.candles = c :: cs) :
    ∃ r : OpResult, closeOrder env cid closing st = .ok r ∧
      r.state.candles = st.candles ∧ st.orders.length ≤ r.state.orders.length + 1 := by
  unfold closeOrder
  by_cases hg : (closing.processing || closing.orderId.isNone) = true
  · rw [if_pos hg]
    exact ⟨⟨st, none, []⟩, rfl, rfl, Nat.le_succ _⟩
  · rw [if_neg hg, hc]
    simp only [List.head?_cons]
    rcases hskip : asyncSkipReduce (fun i => Event.hook .beforeClose i
        (setProcessing st.orders closing.cid true)) env.beforeCloseHooks
        (mkClosePendingOrder env cid closing c, { closing with processing := true }) 0
      with ⟨res, evs⟩
    rcases res with e | b
    · dsimp only
      refine ⟨_, rfl, rfl, ?_⟩
      dsimp only
      have h1 := length_closeCatchRestore (setProcessing st.orders closing.cid true)
        { closing with processing := true }
      rw [length_setProcessing] at h1
      omega
    · cases b with
      | true =>
        dsimp only
        refine ⟨_, rfl, rfl, ?_⟩
        dsimp only
        rw [length_setProcessing, length_setProcessing]
        omega
      | false =>
        rcases hplace : env.placeOrder (mkClosePendingOrder env cid closing c) with e | ord
        · dsimp only
          refine ⟨_, rfl, rfl, ?_⟩
          dsimp only
          have h1 := length_closeCatchRestore
            (removeFirstByCid closing.cid (setProcessing st.orders closing.cid true))
            { closing with processing := true }
          have h2 := length_removeFirstByCid (setProcessing st.orders closing.cid true)
            closing.cid
          rw [length_setProcessing] at h2
          omega
        · dsimp only
          rcases hred : asyncReduce (fun i => Event.hook .onClose i
              (removeFirstByCid closing.cid (setProcessing st.orders closing.cid true)))
              env.onCloseHooks (ord, { closing with processing := true }) 0 with ⟨res2, evs2⟩
          rcases res2 with e | u
          · dsimp only
            refine ⟨_, rfl, rfl, ?_⟩
            dsimp only
            have h1 := length_closeCatchRestore
              (removeFirstByCid closing.cid (setProcessing st.orders closing.cid true))
              { closing with processing := true }
            have h2 := length_removeFirstByCid (setProcessing st.orders closing.cid true)
              closing.cid
            rw [length_setProcessing] at h2
            omega
          · dsimp only
            refine ⟨_, rfl, rfl, ?_⟩
            dsimp only
            have h2 := length_removeFirstByCid (setProcessing st.orders closing.cid true)
              closing.cid
            rw [length_setProcessing] at h2
            rw [length_setProcessing]
            omega

/-- The close loop of closeAll runs exactly its snapshot count of
iterations when that count is at most the book size: every iteration finds a
head order, closeOrder answers ok, and one entry per iteration lands in the
closed list, undefined results included. -/
lemma closeAllLoop_ok (env : Env) (cids : Nat → ℚ) :
    ∀ (n i : Nat) (st : EngineState) (c : Candle) (cs : List Candle),
      st.candles = c :: cs → n ≤ st.orders.length →
      ∃ st' L evs, closeAllLoop env cids i n st = .ok (st', L, evs) ∧ L.length = n := by
  intro n
  induction n with
  | zero =>
    intro i st c cs hc hle
    exact ⟨st, [], [], rfl, rfl⟩
  | succ n ih =>
    intro i st c cs hc hle
    obtain ⟨o, ho⟩ : ∃ o, st.orders.head? = some o := by
      rcases horders : st.orders with _ | ⟨o, os⟩
      · rw [horders] at hle
        simp at hle
      · exact ⟨o, rfl⟩
    obtain ⟨r, hr, hrc, hrl⟩ := closeOrder_ok env (cids i) o st c cs hc
    obtain ⟨st', L, evs, hloop, hL⟩ := ih (i + 1) r.state c cs (by rw [hrc, hc]) (by omega)
    refine ⟨st', r.ret :: L, r.events ++ evs, ?_, by simp [hL]⟩
    unfold closeAllLoop
    rw [ho]
    dsimp only
    rw [hr]
    dsimp only
    rw [hloop]

/-- C1 counterexample: a book holding a single pending order that was never
executed. The only close attempt is a no-op, yet closeAll returns a list with
one entry, the undefined result of that no-op, instead of the empty list of
successfully closed orders that the claim promises (no-ops silently
omitted). -/
def stP : EngineState := ⟨[pendingNoId], [exCandle], false⟩

theorem closeAll_noop_entry_counterexample :
    closeAll baseEnv (fun _ => 0) stP = .ok (stP, some [none], []) ∧
    some [(none : Option Order)] ≠ some ([] : List (Option Order)) := by
  exact ⟨rfl, by simp⟩

/-- C1 amended: on a nonempty book with a current candle, closeAll snapshots
the book length, sequentially closes the current head order once per
snapshot slot and returns the list of the per-iteration closeOrder results:
one entry per snapshot slot, where a successful close contributes its
executed order and a no-op or failed close contributes undefined (the
entries are not filtered). On an empty book it returns undefined. -/
theorem closeAll_entry_per_snapshot (env : Env) (cids : Nat → ℚ)
    (st : EngineState) (c : Candle) (cs : List Candle)
    (hc : st.candles = c :: cs) (hne : st.orders ≠ []) :
    ∃ st' L evs, closeAll env cids st = .ok (st', some L, evs) ∧
      L.length = st.orders.length := by
  obtain ⟨st', L, evs, hloop, hL⟩ :=
    closeAllLoop_ok env cids st.orders.length 0 st c cs hc le_rfl
  refine ⟨st', L, evs, ?_, hL⟩
  unfold closeAll
  rw [if_neg (by simpa using hne), hloop]

theorem closeAll_entry_per_snapshot_witness :
    ∃ st' L evs, closeAll baseEnv (fun _ => 0) stW = .ok (st', some L, evs) ∧
      L.length = 1 := by
  have := closeAll_entry_per_snapshot baseEnv (fun _ => 0) stW exCandle [] rfl
    (by simp [stW])
  simpa [stW] using this
